import Mathlib

/-!
Verification of the ctap TAP colouriser (main.go): a shallow embedding of
the line classifier (`parseLine` and its regular expressions), the stream
processor loop of `runCLI`, the end-of-stream finalization (`printAppends`,
`printSummary`), the rendering filter (`cprintln`) and the colour
configuration (`parseColour`, `getColour`, `getColourMap`), together with
theorems settling the specification claims.

Lines of text are modelled as `List Char`.  Go `int` values appearing in
the program (test numbers, plan bounds, loop counters) are modelled as
`Int`, with the one arithmetic operation the source performs on them —
the `testnum++` increment — reduced modulo 2^64 into `[-2^63, 2^63)`
(`wrap64`), matching the silent wraparound of Go's 64-bit `int` on the
project's build targets; `strconv.Atoi` is modelled with its 64-bit
overflow failure (`goAtoi`).  The exit code is only ever assigned the
constants 0, 3, 4 and 5, so it stays a `Nat`.
-/

set_option maxRecDepth 10000

/-- Go regexp `\d`: ASCII digit. -/
def isGoDigit (c : Char) : Bool :=
  '0' ≤ c ∧ c ≤ '9'

/-- Go regexp `\s`: ASCII whitespace `[\t\n\f\r ]`. -/
def isGoSpace (c : Char) : Bool :=
  c = ' ' ∨ c = '\t' ∨ c = '\n' ∨ c = '\x0c' ∨ c = '\r'

/-- Go regexp `\pZ`: a character in the Unicode separator category Z
(Zs, Zl, Zp). -/
def isPZ (c : Char) : Bool :=
  c = ' ' ∨ c = '\u00A0' ∨ c = '\u1680' ∨
  ('\u2000' ≤ c ∧ c ≤ '\u200A') ∨
  c = '\u2028' ∨ c = '\u2029' ∨ c = '\u202F' ∨ c = '\u205F' ∨ c = '\u3000'

/-- Numeric value of a list of ASCII digits (most significant first). -/
def digitsToNat (s : List Char) : Nat :=
  s.foldl (fun a c => a * 10 + (c.toNat - '0'.toNat)) 0

/-- Go `strconv.Atoi` restricted to the strings it is applied to in
main.go (submatches of `\d+`): succeeds on a non-empty all-digit string
whose value fits in a signed 64-bit `int` (the build targets are all
64-bit), fails otherwise (Go returns an error and the caller keeps the
zero value). -/
def goAtoi (s : List Char) : Option Int :=
  if s ≠ [] ∧ s.all isGoDigit ∧ digitsToNat s ≤ 2 ^ 63 - 1 then
    some ((digitsToNat s : Int))
  else
    none

/-- Reduction of a Go `int` (64-bit two's complement) arithmetic result
to its representable value: wraps into `[-2^63, 2^63)`.  Used where the
source increments `testnum`, whose wraparound at `2^63 - 1` is silent in
Go. -/
def wrap64 (n : Int) : Int :=
  (n + 2 ^ 63) % 2 ^ 64 - 2 ^ 63

/-- The `lineType` enumeration of main.go (iota order). -/
inductive lineType where
  | tapUnknown
  | tapVersion
  | tapPlan
  | tapTestOK
  | tapTestNOK
  | tapDiagnostic
  | tapBail
  | tapSummaryOK
  | tapSummaryNOK
  | tapPlanNOK
  deriving DecidableEq, Repr

/-- The `lineRecord` struct of main.go.  `parseLine` never assigns
`Description`/`Directive`, so they are omitted; Go zero values are the
defaults. -/
structure lineRecord where
  Type' : lineType := lineType.tapUnknown
  PlanFirst : Int := 0
  PlanLast : Int := 0
  TestNum : Int := 0
  deriving DecidableEq, Repr

/-- `reVersion = ^TAP version (\d+)` (match not anchored at the end):
the line starts with "TAP version " followed by at least one digit. -/
def reVersionMatch (s : List Char) : Bool :=
  ("TAP version ".toList).isPrefixOf s &&
  (match s.drop 12 with
   | c :: _ => isGoDigit c
   | [] => false)

/-- The part after `#` in `rePlan`, i.e. `\s*(.*?)\s*$` (RE2: `.` does not
match a newline, `\s` does): matches exactly when the string minus some
all-space prefix and all-space suffix is newline-free, equivalently when
the maximally space-trimmed middle contains no newline. -/
def planHashTail (s : List Char) : Bool :=
  (((s.dropWhile isGoSpace).reverse.dropWhile isGoSpace).all (fun c => c ≠ '\n'))

/-- The tail of `rePlan` after the two plan numbers:
`\s*(?:#\s*(.*?)\s*)?$`.  The greedy `\s*` is deterministic because the
optional group must start with `#`, which is not a space. -/
def planTail (s : List Char) : Bool :=
  match s.dropWhile isGoSpace with
  | [] => true
  | c :: r => c = '#' ∧ planHashTail r

/-- One backtracking attempt of `rePlan = ^(\d+)..(\d+)\s*(?:#\s*(.*?)\s*)?$`
with the first capture group set to the first `k` characters of `s`.
The two unescaped dots match any character except newline.  The second
`(\d+)` needs no backtracking: a digit left over for the tail cannot be
matched by `\s*`, `#` or `$`. -/
def planCheckAt (s : List Char) (k : Nat) : Option (List Char × List Char) :=
  let d1 := s.take k
  if d1.length = k ∧ d1 ≠ [] ∧ d1.all isGoDigit then
    match s.drop k with
    | c1 :: c2 :: r =>
      if c1 ≠ '\n' ∧ c2 ≠ '\n' then
        let d2 := r.takeWhile isGoDigit
        if d2 ≠ [] ∧ planTail (r.dropWhile isGoDigit) then
          some (d1, d2)
        else none
      else none
    | _ => none
  else none

/-- Backtracking search for `rePlan`: the greedy first `(\d+)` tries the
longest digit prefix first and shrinks on failure. -/
def planSearch (s : List Char) : Nat → Option (List Char × List Char)
  | 0 => none
  | k + 1 =>
    match planCheckAt s (k + 1) with
    | some r => some r
    | none => planSearch s k

/-- `rePlan.FindStringSubmatch`: the two captured digit substrings, or
`none` when the regexp does not match. -/
def rePlanFind (s : List Char) : Option (List Char × List Char) :=
  planSearch s (s.takeWhile isGoDigit).length

/-- The suffix `(?:\pZ+(#\pZ*(.*?)))?\pZ*?$` of `reTest`: either a
non-empty separator run followed by `#` and a newline-free remainder
(`\pZ*` and `(.*?)` together absorb any newline-free text), or an
all-separator string matched by `\pZ*?$` with the group absent. -/
def testDE (s : List Char) : Bool :=
  (match s.dropWhile isPZ with
   | '#' :: r => !(s.takeWhile isPZ).isEmpty && r.all (fun c => c ≠ '\n')
   | _ => false) ||
  s.all isPZ

/-- Search for the boundary of the greedy `([^#]+)` group of `reTest`: some
non-empty `#`-free prefix of `s` is consumed and the rest matches
`testDE`. -/
def cSearch : List Char → Bool
  | [] => false
  | c :: r => c ≠ '#' && (testDE r || cSearch r)

/-- The suffix `(?:\pZ+([^#]+))?(?:\pZ+(#\pZ*(.*?)))?\pZ*?$` of `reTest`:
with the description group present its leading `\pZ+` can be taken one
character wide (separators are also matched by `[^#]`), or the group is
absent. -/
def testCDE (s : List Char) : Bool :=
  (match s with
   | c :: r => isPZ c && cSearch r
   | [] => false) ||
  testDE s

/-- Matching of `reTest` after the leading `(ok|not ok)`, returning the
test-number capture group as in Go (`[]` when the group is absent, Go's
`""`).  The greedy `\pZ+(\d+)` is tried first; shrinking the digit run
cannot help (a leftover digit matches neither `\pZ+` nor `\pZ*?$` nor a
leading `#`), so on failure the whole optional group is dropped. -/
def testAfterRes (r : List Char) : Option (List Char) :=
  let z := r.takeWhile isPZ
  let r1 := r.dropWhile isPZ
  if !z.isEmpty && (match r1 with
                    | c :: _ => isGoDigit c
                    | [] => false) then
    let d := r1.takeWhile isGoDigit
    let r2 := r1.dropWhile isGoDigit
    if testCDE r2 then some d
    else if testCDE r then some []
    else none
  else if testCDE r then some []
  else none

/-- `reTest.FindStringSubmatch` of main.go:
`^(ok|not ok)(?:\pZ+(\d+))?(?:\pZ+([^#]+))?(?:\pZ+(#\pZ*(.*?)))?\pZ*?$`.
Returns the result word ("ok" or "not ok") and the test-number group
(`[]` = absent).  The alternation is leftmost-first; no string starts
with both "ok" and "not ok". -/
def reTestFind (s : List Char) : Option (List Char × List Char) :=
  if ("ok".toList).isPrefixOf s then
    match testAfterRes (s.drop 2) with
    | some d => some ("ok".toList, d)
    | none => none
  else if ("not ok".toList).isPrefixOf s then
    match testAfterRes (s.drop 6) with
    | some d => some ("not ok".toList, d)
    | none => none
  else none

/-- `reDiagnostic = ^#`. -/
def reDiagnosticMatch (s : List Char) : Bool :=
  match s with
  | '#' :: _ => true
  | _ => false

/-- `reBail = ^Bail out!(?:\pZ*(.*?))?\pZ*$`: the line starts with
"Bail out!" and the remainder is newline-free (`\pZ*` and `(.*?)` absorb
every character except `\n`, which neither can match). -/
def reBailMatch (s : List Char) : Bool :=
  ("Bail out!".toList).isPrefixOf s && (s.drop 9).all (fun c => c ≠ '\n')

/-- `parseLine` of main.go: classify one line, trying the regexps in
source order (version, plan, test, diagnostic, bail) with `Unknown` as
the catch-all.  A failed `Atoi` (64-bit overflow) leaves the Go zero
value 0 in the record. -/
def parseLine (text : List Char) : lineRecord :=
  if reVersionMatch text then
    { Type' := lineType.tapVersion }
  else
    match rePlanFind text with
    | some (planfirst, planlast) =>
      { Type' := lineType.tapPlan,
        PlanFirst := (goAtoi planfirst).getD 0,
        PlanLast := (goAtoi planlast).getD 0 }
    | none =>
      match reTestFind text with
      | some (res, testno) =>
        let tn : Int := if testno ≠ [] then (goAtoi testno).getD 0 else 0
        let ty : lineType :=
          if res = ("ok".toList) then lineType.tapTestOK
          else if res = ("not ok".toList) then lineType.tapTestNOK
          else lineType.tapUnknown
        { Type' := ty, TestNum := tn }
      | none =>
        if reDiagnosticMatch text then
          { Type' := lineType.tapDiagnostic }
        else if reBailMatch text then
          { Type' := lineType.tapBail }
        else
          { Type' := lineType.tapUnknown }

/-- Exit code for a failed test (main.go `testFailExitCode`). -/
def testFailExitCode : Nat := 3

/-- Exit code for a plan mismatch (main.go `planFailExitCode`). -/
def planFailExitCode : Nat := 4

/-- Exit code for a bail out (main.go `bailExitCode`). -/
def bailExitCode : Nat := 5

/-- The pass glyph `✓`. -/
def glyphOK : List Char := ['✓']

/-- The fail glyph `✗`. -/
def glyphNOK : List Char := ['✗']

/-- The `options` struct of main.go (command-line flags).  The positional
`TapFile` argument only selects the input source, which is an excluded
collaborator, so it is omitted.  Go zero values are the defaults. -/
structure options where
  Failures : Bool := false
  Glyphs : Bool := false
  Summary : Bool := false
  CVersion : List Char := []
  CPlan : List Char := []
  COk : List Char := []
  CFail : List Char := []
  CDiag : List Char := []
  CBail : List Char := []
  deriving DecidableEq, Repr

/-- The `gookit/color` primitives used by main.go: the ten foreground
colours of `colourStringMap` and the seven modifiers of `colourOptMap`. -/
inductive Colour where
  | FgRed
  | FgBlue
  | FgGreen
  | FgYellow
  | FgCyan
  | FgMagenta
  | FgWhite
  | FgBlack
  | FgGray
  | FgDefault
  | OpBold
  | OpItalic
  | OpUnderscore
  | OpBlink
  | OpConcealed
  | OpFuzzy
  | OpReverse
  deriving DecidableEq, Repr

/-- A `color.PrinterFace` value as built by `parseColour`: either a hex
style (`color.HEXStyle`, with modifiers added by `AddOpts`) or a basic
style (`color.New`). -/
inductive Printer where
  | hexStyle (hex : List Char) (opts : List Colour)
  | colorNew (colours : List Colour)
  deriving DecidableEq, Repr

/-- The `colourStringMap` of main.go: colour names. -/
def colourStringMap (t : List Char) : Option Colour :=
  if t = ("red".toList) then some Colour.FgRed
  else if t = ("blue".toList) then some Colour.FgBlue
  else if t = ("green".toList) then some Colour.FgGreen
  else if t = ("yellow".toList) then some Colour.FgYellow
  else if t = ("cyan".toList) then some Colour.FgCyan
  else if t = ("magenta".toList) then some Colour.FgMagenta
  else if t = ("white".toList) then some Colour.FgWhite
  else if t = ("black".toList) then some Colour.FgBlack
  else if t = ("gray".toList) then some Colour.FgGray
  else if t = ("default".toList) then some Colour.FgDefault
  else none

/-- The `colourOptMap` of main.go: style modifiers. -/
def colourOptMap (t : List Char) : Option Colour :=
  if t = ("bold".toList) then some Colour.OpBold
  else if t = ("italic".toList) then some Colour.OpItalic
  else if t = ("underscore".toList) then some Colour.OpUnderscore
  else if t = ("blink".toList) then some Colour.OpBlink
  else if t = ("concealed".toList) then some Colour.OpConcealed
  else if t = ("fuzzy".toList) then some Colour.OpFuzzy
  else if t = ("reverse".toList) then some Colour.OpReverse
  else none

/-- `strings.Split(c, " ")`: split on single spaces, keeping empty
fields.  The accumulator holds the current field reversed. -/
def splitSpace : List Char → List Char → List (List Char)
  | [], acc => [acc.reverse]
  | c :: r, acc =>
    if c = ' ' then acc.reverse :: splitSpace r []
    else splitSpace r (c :: acc)

/-- Case-insensitive hex digit, for `reHexColour`'s `(?i)` flag. -/
def isHexDigitCI (c : Char) : Bool :=
  ('0' ≤ c ∧ c ≤ '9') ∨ ('a' ≤ c ∧ c ≤ 'f') ∨ ('A' ≤ c ∧ c ≤ 'F')

/-- `reHexColour = (?i)^#?([0-9a-f]{6}|[0-9a-f]{3})$`: an optional `#`
then exactly six or three hex digits.  `#` is not a hex digit, so the
optional `#` is deterministic. -/
def reHexColourMatch (s : List Char) : Bool :=
  let s1 := match s with
            | '#' :: r => r
            | _ => s
  s1.all isHexDigitCI && (s1.length = 6 || s1.length = 3)

/-- The two error cases of `parseColour` (`fmt.Errorf` results). -/
inductive colourErr where
  | multipleColours
  | badColourString
  deriving DecidableEq, Repr

/-- The token loop of `parseColour`: modifiers accumulate in order, a
second non-modifier token is an error, otherwise the last-seen
non-modifier token becomes the colour string. -/
def parseColourLoop : List (List Char) → List Char → List Colour →
    Except colourErr (List Char × List Colour)
  | [], colourStr, opts => Except.ok (colourStr, opts)
  | t :: ts, colourStr, opts =>
    match colourOptMap t with
    | some o => parseColourLoop ts colourStr (opts ++ [o])
    | none =>
      if colourStr ≠ [] then Except.error colourErr.multipleColours
      else parseColourLoop ts t opts

/-- `parseColour` of main.go: parse a colour description string into a
printer, or fail. -/
def parseColour (c : List Char) : Except colourErr Printer :=
  match parseColourLoop (splitSpace c []) [] [] with
  | Except.error e => Except.error e
  | Except.ok (colourStr, opts) =>
    if reHexColourMatch colourStr then
      Except.ok (Printer.hexStyle colourStr opts)
    else
      match colourStringMap colourStr with
      | none => Except.error colourErr.badColourString
      | some colour =>
        if opts ≠ [] then Except.ok (Printer.colorNew (colour :: opts))
        else Except.ok (Printer.colorNew [colour])

/-- `getColour` of main.go.  A non-empty option string that parses wins;
otherwise (including when the option string fails to parse) the default
is used.  `none` models the `log.Fatal` on an unparseable default. -/
def getColour (defaultColour optColour : List Char) : Option Printer :=
  if optColour ≠ [] then
    match parseColour optColour with
    | Except.ok c => some c
    | Except.error _ =>
      match parseColour defaultColour with
      | Except.ok c => some c
      | Except.error _ => none
  else
    match parseColour defaultColour with
    | Except.ok c => some c
    | Except.error _ => none

/-- Default colour strings of main.go. -/
def defaultCUnknown : List Char := "default".toList

/-- Default version-line colour. -/
def defaultCVersion : List Char := "cyan".toList

/-- Default plan-line colour. -/
def defaultCPlan : List Char := "white".toList

/-- Default test-ok colour. -/
def defaultCOk : List Char := "green".toList

/-- Default test-fail colour. -/
def defaultCFail : List Char := "red bold".toList

/-- Default diagnostic colour. -/
def defaultCDiag : List Char := "gray".toList

/-- Default bail-out colour. -/
def defaultCBail : List Char := "yellow bold".toList

/-- Default summary-ok colour. -/
def defaultCSummOk : List Char := "green bold".toList

/-- Default summary-fail colour. -/
def defaultCSummFail : List Char := "red bold".toList

/-- Default plan-fail colour. -/
def defaultCPlanFail : List Char := "magenta bold".toList

/-- `getColourMap` of main.go: the `colourMap` (a map from `lineType` to
printers) with all ten keys assigned.  An entry is `none` exactly when
the corresponding `getColour` call would have hit `log.Fatal`. -/
def getColourMap (opt : options) : lineType → Option Printer
  | lineType.tapUnknown => getColour defaultCUnknown []
  | lineType.tapVersion => getColour defaultCVersion opt.CVersion
  | lineType.tapPlan => getColour defaultCPlan opt.CPlan
  | lineType.tapTestOK => getColour defaultCOk opt.COk
  | lineType.tapTestNOK => getColour defaultCFail opt.CFail
  | lineType.tapDiagnostic => getColour defaultCDiag opt.CDiag
  | lineType.tapBail => getColour defaultCBail opt.CBail
  | lineType.tapSummaryOK => getColour defaultCSummOk []
  | lineType.tapSummaryNOK => getColour defaultCSummFail []
  | lineType.tapPlanNOK => getColour defaultCPlanFail []

/-- `reTestPrefix.ReplaceAllString(text, glyph+" ")` of main.go, where
the Go pattern is `^(ok|not ok)\pZ*`: being anchored it replaces at most
the leading match.  When the text starts with neither word it is
returned unchanged. -/
def reTestLeadReplace (glyph : List Char) (text : List Char) : List Char :=
  if ("ok".toList).isPrefixOf text then
    glyph ++ ' ' :: ((text.drop 2).dropWhile isPZ)
  else if ("not ok".toList).isPrefixOf text then
    glyph ++ ' ' :: ((text.drop 6).dropWhile isPZ)
  else text

/-- The glyph substitution block of `cprintln` (active under the
`--glyphs` option). -/
def glyphText (opts : options) (linetype : lineType) (text : List Char) : List Char :=
  if opts.Glyphs then
    match linetype with
    | lineType.tapTestOK => reTestLeadReplace glyphOK text
    | lineType.tapTestNOK => reTestLeadReplace glyphNOK text
    | lineType.tapBail => glyphNOK ++ ' ' :: text
    | _ => text
  else text

/-- `cprintln` of main.go.  `Except.ok none` models the suppressed
(no-output) return under `--failures`; `Except.error ()` models the
`log.Fatalf "no formatter defined for linetype"` branch; `Except.ok
(some text)` models printing `text` with the resolved printer. -/
def cprintln (text : List Char) (linetype : lineType)
    (cmap : lineType → Option Printer) (opts : options) :
    Except Unit (Option (List Char)) :=
  if opts.Failures ∧ linetype = lineType.tapTestOK then Except.ok none
  else
    match cmap linetype with
    | none => Except.error ()
    | some _ => Except.ok (some (glyphText opts linetype text))

/-- The output of `cprintln` when its fatal branch is not taken (see
`cprintln_ok`): `none` when the line is suppressed, otherwise the
printed text. -/
def cprintlnOut (text : List Char) (linetype : lineType) (opts : options) :
    Option (List Char) :=
  if opts.Failures ∧ linetype = lineType.tapTestOK then none
  else some (glyphText opts linetype text)

/-- The loop state of `runCLI` (the spec's RunState): `planLast`,
`testnum`, `failures` and `exitCode`, all starting at Go zero values. -/
structure RunState where
  planLast : Int := 0
  testnum : Int := 0
  failures : List Int := []
  exitCode : Nat := 0
  deriving DecidableEq, Repr

/-- The per-line state transition of the `runCLI` loop (the `switch
line.Type` statement of main.go). -/
def runCLIStep (st : RunState) (line : lineRecord) : RunState :=
  match line.Type' with
  | lineType.tapPlan => { st with planLast := line.PlanLast }
  | lineType.tapTestOK | lineType.tapTestNOK =>
    let testnum := if line.TestNum > 0 then line.TestNum
                   else wrap64 (st.testnum + 1)
    if line.Type' = lineType.tapTestNOK then
      { st with testnum := testnum,
                failures := st.failures ++ [testnum],
                exitCode := if st.exitCode < testFailExitCode then
                              testFailExitCode
                            else st.exitCode }
    else
      { st with testnum := testnum }
  | lineType.tapBail =>
    { st with exitCode := if st.exitCode < bailExitCode then bailExitCode
                          else st.exitCode }
  | _ => st

/-- The state after the `runCLI` scanner loop over a list of input
lines. -/
def runLoop (lines : List (List Char)) : RunState :=
  lines.foldl (fun st text => runCLIStep st (parseLine text)) {}

/-- One emitted output record.  `line` is a coloured input line printed
by `cprintln`; the remaining constructors are the `Printf` calls of
`printSummary` and `printAppends`, carrying the data they format (the
two-decimal percentage of `summaryFailedPct` is
`(ntests - nfail) * 100 / ntests` over floats, determined by the two
carried fields). -/
inductive OutItem where
  | line (linetype : lineType) (text : List Char)
  | summaryFailedTests (glyph plural : Bool) (failures : List Int)
  | summaryFailedPct (glyph : Bool) (nfail : Nat) (ntests : Int)
  | summaryPassed (glyph : Bool) (ntests : Int)
  | planFailNoTests (glyph : Bool)
  | planFailSeen (glyph : Bool) (seen planned : Int)
  deriving DecidableEq, Repr

/-- `printSummary` of main.go, as the list of summary records it
prints. -/
def printSummary (failures : List Int) (testnum : Int) (planNOK : Bool)
    (opts : options) : List OutItem :=
  if failures.length > 0 then
    [OutItem.summaryFailedTests opts.Glyphs (failures.length > 1) failures,
     OutItem.summaryFailedPct opts.Glyphs failures.length testnum]
  else if !planNOK then
    [OutItem.summaryPassed opts.Glyphs testnum]
  else []

/-- `printAppends` of main.go: compute the plan mismatch, raise the exit
code to at least `planFailExitCode`, optionally print the summary, and
print the plan-failure line independent of the summary option.  Returns
the printed records and the final exit code. -/
def printAppends (failures : List Int) (testnum planLast : Int)
    (exitCode : Nat) (opts : options) : List OutItem × Nat :=
  let planNOK : Bool := testnum = 0 ∨ testnum ≠ planLast
  let exitCode := if planNOK ∧ exitCode < planFailExitCode then
                    planFailExitCode
                  else exitCode
  let summaryOut := if opts.Summary then
                      printSummary failures testnum planNOK opts
                    else []
  let planOut :=
    if planNOK then
      if testnum = 0 then [OutItem.planFailNoTests opts.Glyphs]
      else [OutItem.planFailSeen opts.Glyphs testnum planLast]
    else []
  (summaryOut ++ planOut, exitCode)

/-- The per-line printed output of the `runCLI` loop (every line is
rendered through `cprintln` as it is read; suppressed lines produce
nothing). -/
def lineOutput (lines : List (List Char)) (opts : options) : List OutItem :=
  lines.filterMap (fun text =>
    (cprintlnOut text (parseLine text).Type' opts).map
      (OutItem.line (parseLine text).Type'))

/-- `runCLI` of main.go, minus the excluded collaborators (file opening,
flag parsing, terminal colouring): the full printed output and the final
exit code for a stream of input lines. -/
def runCLI (opts : options) (lines : List (List Char)) : List OutItem × Nat :=
  let st := runLoop lines
  let appends := printAppends st.failures st.testnum st.planLast st.exitCode opts
  (lineOutput lines opts ++ appends.1, appends.2)

/-- Helper: the `runCLI` loop started from an arbitrary state. -/
def runLoopFrom (st : RunState) (lines : List (List Char)) : RunState :=
  lines.foldl (fun st text => runCLIStep st (parseLine text)) st

/-- Modelled from the claim's words (C5): the line has the shape
`<first>..<last>` — two digit sequences separated by two literal dot
characters — optionally followed by `# <reason>` (the optional tail is
read as in the source's `rePlan`, which the claim does not dispute). -/
def planShapeClaim (s : List Char) : Prop :=
  ∃ d1 d2 t, s = d1 ++ '.' :: '.' :: d2 ++ t ∧
    d1 ≠ [] ∧ d1.all isGoDigit ∧ d2 ≠ [] ∧ d2.all isGoDigit ∧ planTail t

/-- Modelled from the claim's words as amended: the same shape but with
the two separator characters arbitrary (any character except newline),
because the two dots in `rePlan` are unescaped. -/
def planShapeAmended (s : List Char) : Prop :=
  ∃ d1 c1 c2 d2 t, s = d1 ++ c1 :: c2 :: d2 ++ t ∧
    d1 ≠ [] ∧ d1.all isGoDigit ∧ c1 ≠ '\n' ∧ c2 ≠ '\n' ∧
    d2 ≠ [] ∧ d2.all isGoDigit ∧ planTail t

/-- An output record that is a rendered `TestOK` input line (the records
suppressed by the `--failures` option). -/
def isTestOKLine : OutItem → Bool
  | OutItem.line lineType.tapTestOK _ => true
  | _ => false

theorem runLoop_eq_runLoopFrom (lines : List (List Char)) :
    runLoop lines = runLoopFrom {} lines := rfl

theorem runLoopFrom_cons (st : RunState) (l : List Char)
    (ls : List (List Char)) :
    runLoopFrom st (l :: ls) = runLoopFrom (runCLIStep st (parseLine l)) ls := rfl

theorem runLoopFrom_append (st : RunState) (ls₁ ls₂ : List (List Char)) :
    runLoopFrom st (ls₁ ++ ls₂) = runLoopFrom (runLoopFrom st ls₁) ls₂ := by
  simp [runLoopFrom, List.foldl_append]

/-- A single transition never decreases the exit code. -/
theorem runCLIStep_exit_mono (st : RunState) (l : lineRecord) :
    st.exitCode ≤ (runCLIStep st l).exitCode := by
  rcases l with ⟨ty, pf, pl, tn⟩
  cases ty <;>
    simp [runCLIStep, testFailExitCode, bailExitCode] <;>
    (try split_ifs) <;> omega

/-- A single transition keeps the exit code at or below `bailExitCode`. -/
theorem runCLIStep_exit_le (st : RunState) (l : lineRecord)
    (h : st.exitCode ≤ bailExitCode) :
    (runCLIStep st l).exitCode ≤ bailExitCode := by
  rcases l with ⟨ty, pf, pl, tn⟩
  simp [bailExitCode] at h
  cases ty <;>
    simp [runCLIStep, testFailExitCode, bailExitCode] <;>
    (try split_ifs) <;> omega

/-- The loop never decreases the exit code. -/
theorem runLoopFrom_exit_mono (lines : List (List Char)) (st : RunState) :
    st.exitCode ≤ (runLoopFrom st lines).exitCode := by
  induction lines generalizing st with
  | nil => simp [runLoopFrom]
  | cons l ls ih =>
    rw [runLoopFrom_cons]
    exact le_trans (runCLIStep_exit_mono st (parseLine l)) (ih _)

/-- The loop keeps the exit code at or below `bailExitCode`. -/
theorem runLoopFrom_exit_le (lines : List (List Char)) (st : RunState)
    (h : st.exitCode ≤ bailExitCode) :
    (runLoopFrom st lines).exitCode ≤ bailExitCode := by
  induction lines generalizing st with
  | nil => simpa [runLoopFrom]
  | cons l ls ih =>
    rw [runLoopFrom_cons]
    exact ih _ (runCLIStep_exit_le st (parseLine l) h)

/-- A bail record drives the exit code to exactly `bailExitCode` from any
in-range state. -/
theorem runCLIStep_bail (st : RunState) (l : lineRecord)
    (hty : l.Type' = lineType.tapBail) (h : st.exitCode ≤ bailExitCode) :
    (runCLIStep st l).exitCode = bailExitCode := by
  rcases l with ⟨ty, pf, pl, tn⟩
  simp only [lineRecord.Type'] at hty
  subst hty
  simp [runCLIStep, bailExitCode] at h ⊢
  omega

/-- The components of `runCLI`'s result in terms of the loop state. -/
theorem runCLI_exit (opts : options) (lines : List (List Char)) :
    (runCLI opts lines).2 =
      (printAppends (runLoop lines).failures (runLoop lines).testnum
        (runLoop lines).planLast (runLoop lines).exitCode opts).2 := rfl

/-- The exit code returned by `printAppends`: raised to `planFailExitCode`
exactly when the plan mismatches and the code was lower. -/
theorem printAppends_exit (failures : List Int) (tn pl : Int) (ec : Nat)
    (opts : options) :
    (printAppends failures tn pl ec opts).2 =
      if (tn = 0 ∨ tn ≠ pl) ∧ ec < planFailExitCode then planFailExitCode
      else ec := by
  simp [printAppends]

/-- C1.  Exit-code precedence, highest wins and never downgraded: any
stream with a line classifying as Bail ends with exit code 5
(`bailExitCode`), wherever the bail line occurs relative to `not ok`
lines or a plan mismatch; in particular a stream with both a `not ok`
line and a `Bail out!` line, in either order, exits 5. -/
theorem c1_bail_wins (lines : List (List Char)) (opts : options)
    (h : ∃ l ∈ lines, (parseLine l).Type' = lineType.tapBail) :
    (runCLI opts lines).2 = bailExitCode := by
  obtain ⟨l, hmem, hbail⟩ := h
  obtain ⟨s, t, rfl⟩ := List.append_of_mem hmem
  have h1 : (runLoopFrom {} s).exitCode ≤ bailExitCode :=
    runLoopFrom_exit_le s {} (by simp [bailExitCode])
  have h2 : (runCLIStep (runLoopFrom {} s) (parseLine l)).exitCode = bailExitCode :=
    runCLIStep_bail _ _ hbail h1
  have h3 : bailExitCode ≤ (runLoop (s ++ l :: t)).exitCode := by
    rw [runLoop_eq_runLoopFrom, runLoopFrom_append, runLoopFrom_cons, ← h2]
    exact runLoopFrom_exit_mono t _
  have h4 : (runLoop (s ++ l :: t)).exitCode ≤ bailExitCode := by
    rw [runLoop_eq_runLoopFrom]
    exact runLoopFrom_exit_le _ {} (by simp [bailExitCode])
  have h5 : (runLoop (s ++ l :: t)).exitCode = bailExitCode := le_antisymm h4 h3
  rw [runCLI_exit, printAppends_exit, h5]
  simp [bailExitCode, planFailExitCode]

/-- Witness for C1: a `not ok` line and a `Bail out!` line, in either
order, end with exit code 5. -/
theorem c1_bail_wins_witness :
    (runCLI {} [("not ok 1".toList), ("Bail out!".toList)]).2 = bailExitCode ∧
    (runCLI {} [("Bail out!".toList), ("not ok 1".toList)]).2 = bailExitCode :=
  ⟨c1_bail_wins _ {} ⟨("Bail out!".toList), by decide, by decide⟩,
   c1_bail_wins _ {} ⟨("Bail out!".toList), by decide, by decide⟩⟩

/-- C2.  Monotonicity invariant of the stream processor: for every input
stream and position `n`, the exit code after processing `n + 1` lines is
at least the exit code after `n` lines, and the exit code starts at 0. -/
theorem c2_exit_monotone (lines : List (List Char)) (n : Nat) :
    (runLoop (lines.take n)).exitCode ≤ (runLoop (lines.take (n + 1))).exitCode ∧
    (runLoop (lines.take 0)).exitCode = 0 := by
  constructor
  · rw [List.take_succ, runLoop_eq_runLoopFrom, runLoop_eq_runLoopFrom,
      runLoopFrom_append]
    exact runLoopFrom_exit_mono _ _
  · rfl

/-- The output of `runCLI` is the per-line output followed by the records
appended by `printAppends`. -/
theorem runCLI_out (opts : options) (lines : List (List Char)) :
    (runCLI opts lines).1 =
      lineOutput lines opts ++
        (printAppends (runLoop lines).failures (runLoop lines).testnum
          (runLoop lines).planLast (runLoop lines).exitCode opts).1 := rfl

/-- With no test seen, `printAppends` always prints the "no tests seen"
plan-failure record (whether or not the summary option is on). -/
theorem printAppends_mem_noTests (failures : List Int) (pl : Int) (ec : Nat)
    (opts : options) :
    OutItem.planFailNoTests opts.Glyphs ∈ (printAppends failures 0 pl ec opts).1 := by
  simp [printAppends]

/-- With a test/plan count mismatch, `printAppends` always prints the
"only X/Y planned tests seen" plan-failure record. -/
theorem printAppends_mem_seen (failures : List Int) (tn pl : Int) (ec : Nat)
    (opts : options) (h0 : tn ≠ 0) (hne : tn ≠ pl) :
    OutItem.planFailSeen opts.Glyphs tn pl ∈ (printAppends failures tn pl ec opts).1 := by
  simp [printAppends, h0, hne]

/-- C3.  End-of-stream finalization: with `planMismatch` defined as
`testCounter = 0 ∨ testCounter ≠ planLast` over the final loop state,
the final exit code is raised to at least `planFailExitCode` on a
mismatch and never lowered from a higher value (it becomes the maximum
of the loop exit code and 4), is unchanged without a mismatch, and on a
mismatch a plan-failure record is emitted regardless of the summary
option: "no tests seen" when the counter is 0, otherwise "only X/Y
planned tests seen" with X the test counter and Y the plan's last
number. -/
theorem c3_finalization (lines : List (List Char)) (opts : options) :
    ((runLoop lines).testnum = 0 ∨ (runLoop lines).testnum ≠ (runLoop lines).planLast →
      (runCLI opts lines).2 = max (runLoop lines).exitCode planFailExitCode) ∧
    (¬ ((runLoop lines).testnum = 0 ∨ (runLoop lines).testnum ≠ (runLoop lines).planLast) →
      (runCLI opts lines).2 = (runLoop lines).exitCode) ∧
    ((runLoop lines).testnum = 0 →
      OutItem.planFailNoTests opts.Glyphs ∈ (runCLI opts lines).1) ∧
    ((runLoop lines).testnum ≠ 0 → (runLoop lines).testnum ≠ (runLoop lines).planLast →
      OutItem.planFailSeen opts.Glyphs (runLoop lines).testnum (runLoop lines).planLast ∈
        (runCLI opts lines).1) := by
  refine ⟨?_, ?_, ?_, ?_⟩
  · intro pm
    rw [runCLI_exit, printAppends_exit]
    split_ifs with hc
    · simp [planFailExitCode] at hc ⊢
      omega
    · simp [pm, planFailExitCode] at hc ⊢
      omega
  · intro pm
    rw [runCLI_exit, printAppends_exit]
    split_ifs with hc
    · exact absurd hc.1 pm
    · rfl
  · intro h0
    rw [runCLI_out]
    refine List.mem_append_right _ ?_
    rw [h0]
    exact printAppends_mem_noTests (runLoop lines).failures
      (runLoop lines).planLast (runLoop lines).exitCode opts
  · intro h0 hne
    rw [runCLI_out]
    exact List.mem_append_right _
      (printAppends_mem_seen _ _ _ _ opts h0 hne)

/-- Witness for C3: the empty stream has a plan mismatch (no tests seen),
its exit code is raised from 0 to 4, and the "no tests seen" record is
emitted with the summary option off. -/
theorem c3_finalization_witness :
    (runCLI {} []).2 = max 0 planFailExitCode ∧
    OutItem.planFailNoTests false ∈ (runCLI {} []).1 := by
  have h := c3_finalization [] {}
  exact ⟨by simpa using h.1 (Or.inl rfl), by simpa using h.2.2.1 rfl⟩

/-- Percentage records printed by `printSummary` always carry the failure
count and test counter it was called with, and are only printed when the
failure list is non-empty. -/
theorem printSummary_pct_mem (failures : List Int) (tn : Int) (planNOK : Bool)
    (opts : options) (g : Bool) (nf : Nat) (nt : Int)
    (h : OutItem.summaryFailedPct g nf nt ∈ printSummary failures tn planNOK opts) :
    failures ≠ [] ∧ nf = failures.length ∧ nt = tn := by
  unfold printSummary at h
  split_ifs at h with h1 h2 <;> simp_all
  intro hf
  subst hf
  simp at h1

/-- Every record of the per-line output is a rendered input line. -/
theorem lineOutput_shape (lines : List (List Char)) (opts : options)
    (x : OutItem) (h : x ∈ lineOutput lines opts) :
    ∃ t tx, x = OutItem.line t tx := by
  unfold lineOutput at h
  obtain ⟨l, _, hx⟩ := List.mem_filterMap.mp h
  rcases ho : cprintlnOut l (parseLine l).Type' opts with _ | tx
  · rw [ho] at hx
    simp at hx
  · rw [ho] at hx
    simp at hx
    exact ⟨_, _, hx.symm⟩

/-- `wrap64` is the identity on representable 64-bit values. -/
theorem wrap64_eq_self (n : Int) (h1 : -(2 ^ 63) ≤ n) (h2 : n < 2 ^ 63) :
    wrap64 n = n := by
  unfold wrap64
  have h3 : (0 : Int) ≤ n + 2 ^ 63 := by omega
  have h4 : n + 2 ^ 63 < 2 ^ 64 := by omega
  rw [Int.emod_eq_of_lt h3 h4]
  omega

/-- The counter after one transition: updated (with wraparound on the
increment) on test records, untouched otherwise. -/
theorem runCLIStep_testnum (st : RunState) (l : lineRecord) :
    (runCLIStep st l).testnum =
      (if l.Type' = lineType.tapTestOK ∨ l.Type' = lineType.tapTestNOK then
        (if 0 < l.TestNum then l.TestNum else wrap64 (st.testnum + 1))
       else st.testnum) := by
  rcases l with ⟨ty, pf, pl, tn⟩
  cases ty <;> simp [runCLIStep]

/-- The failure list after one transition: the effective counter value
is appended on failing-test records, untouched otherwise. -/
theorem runCLIStep_failures (st : RunState) (l : lineRecord) :
    (runCLIStep st l).failures =
      (if l.Type' = lineType.tapTestNOK then
         st.failures ++ [(runCLIStep st l).testnum]
       else st.failures) := by
  rcases l with ⟨ty, pf, pl, tn⟩
  cases ty <;> simp [runCLIStep]

/-- One-step preservation of the no-wrap invariant, with `k` the number
of lines still to come: a counter that is non-negative and leaves room
for the remaining increments stays so, never wraps, and only appends
failure numbers that are at least 1. -/
theorem runCLIStep_inv (st : RunState) (l : lineRecord) (k : Int)
    (hk : 0 ≤ k)
    (hrb : l.TestNum + k + 1 < 2 ^ 63 - 1)
    (h0 : 0 ≤ st.testnum)
    (h1 : st.testnum + k + 1 < 2 ^ 63 - 1)
    (hf : ∀ x ∈ st.failures, 1 ≤ x)
    (hpos : st.failures ≠ [] → 1 ≤ st.testnum) :
    0 ≤ (runCLIStep st l).testnum ∧
    (runCLIStep st l).testnum + k < 2 ^ 63 - 1 ∧
    (∀ x ∈ (runCLIStep st l).failures, 1 ≤ x) ∧
    ((runCLIStep st l).failures ≠ [] → 1 ≤ (runCLIStep st l).testnum) := by
  have hwrap : wrap64 (st.testnum + 1) = st.testnum + 1 :=
    wrap64_eq_self _ (by omega) (by omega)
  have ht := runCLIStep_testnum st l
  have hfl := runCLIStep_failures st l
  by_cases htest : l.Type' = lineType.tapTestOK ∨ l.Type' = lineType.tapTestNOK
  · rw [if_pos htest] at ht
    have h1' : 1 ≤ (runCLIStep st l).testnum ∧
        (runCLIStep st l).testnum + k < 2 ^ 63 - 1 := by
      rw [ht]
      split_ifs with hc
      · constructor <;> omega
      · rw [hwrap]
        constructor <;> omega
    refine ⟨by omega, h1'.2, ?_, fun _ => h1'.1⟩
    by_cases hnok : l.Type' = lineType.tapTestNOK
    · rw [if_pos hnok] at hfl
      rw [hfl]
      intro x hx
      rcases List.mem_append.mp hx with hx | hx
      · exact hf x hx
      · simp only [List.mem_singleton] at hx
        subst hx
        exact h1'.1
    · rw [if_neg hnok] at hfl
      rw [hfl]
      exact hf
  · rw [if_neg htest] at ht
    have hnok : ¬ l.Type' = lineType.tapTestNOK := fun hh => htest (Or.inr hh)
    rw [if_neg hnok] at hfl
    rw [ht, hfl]
    exact ⟨h0, by omega, hf, hpos⟩

/-- Loop invariant under the no-wrap bound: as long as every line's
classified test number plus the number of remaining lines stays below
`2^63 - 1`, the counter remains non-negative and never wraps, every
recorded failure number is at least 1, and a non-empty failure list
implies a counter of at least 1. -/
theorem runLoopFrom_no_wrap (lines : List (List Char)) (st : RunState)
    (hb : ∀ l ∈ lines, (parseLine l).TestNum + (lines.length : Int) < 2 ^ 63 - 1)
    (h0 : 0 ≤ st.testnum)
    (h1 : st.testnum + (lines.length : Int) < 2 ^ 63 - 1)
    (hf : ∀ x ∈ st.failures, 1 ≤ x)
    (hpos : st.failures ≠ [] → 1 ≤ st.testnum) :
    (∀ x ∈ (runLoopFrom st lines).failures, 1 ≤ x) ∧
    ((runLoopFrom st lines).failures ≠ [] → 1 ≤ (runLoopFrom st lines).testnum) := by
  induction lines generalizing st with
  | nil => exact ⟨hf, hpos⟩
  | cons l ls ih =>
    rw [runLoopFrom_cons]
    have hbl := hb l (List.mem_cons_self l ls)
    simp only [List.length_cons] at hbl h1
    push_cast at hbl h1
    have hstep := runCLIStep_inv st (parseLine l) (ls.length : Int)
      (Int.natCast_nonneg ls.length) (by omega) h0 (by omega) hf hpos
    have hb' : ∀ x ∈ ls, (parseLine x).TestNum + (ls.length : Int) < 2 ^ 63 - 1 := by
      intro x hx
      have hx' := hb x (List.mem_cons_of_mem l hx)
      simp only [List.length_cons] at hx'
      push_cast at hx'
      omega
    exact ih _ hb' hstep.1 hstep.2.1 hstep.2.2.1 hstep.2.2.2

/-- Counterexample for C9 as stated: the implicit invariant "failures
non-empty implies test counter at least 1" is false of the program.  On
the stream `ok 9223372036854775807` (the number is `2^63 - 1`, accepted
by `Atoi` and adopted as the counter) followed by a numberless `not ok`,
Go's `testnum++` wraps the int64 counter to `-2^63`, which is appended
to `failures`; the final counter is below 1. -/
theorem c9_counterexample :
    (runLoop [("ok 9223372036854775807".toList), ("not ok".toList)]).failures =
      [-(2 ^ 63)] ∧
    (runLoop [("ok 9223372036854775807".toList), ("not ok".toList)]).testnum =
      -(2 ^ 63) ∧
    ¬ (1 ≤ (runLoop [("ok 9223372036854775807".toList),
                     ("not ok".toList)]).testnum) := by
  refine ⟨by decide, by decide, by decide⟩

/-- C9 as amended.  Implicit safety, wraparound excluded: for every
stream shorter than `2^63 - 1` lines in which every classified test
number plus the stream length stays below `2^63 - 1` (so the int64
counter can never wrap), a non-empty failure list at end of stream
implies a test counter of at least 1, and consequently the percentage
record `Failed nf/nt tests` emitted by the failure summary always has a
positive denominator `nt`: the division
`(testnum - len(failures)) * 100 / testnum` in `printSummary` never
divides by zero.  (Without the bound the program can wrap the counter
to `-2^63` and even back to 0, see the counterexample.) -/
theorem c9_no_wrap_no_div_by_zero (lines : List (List Char)) (opts : options)
    (hlen : (lines.length : Int) < 2 ^ 63 - 1)
    (hb : ∀ l ∈ lines, (parseLine l).TestNum + (lines.length : Int) < 2 ^ 63 - 1) :
    ((runLoop lines).failures ≠ [] → 1 ≤ (runLoop lines).testnum) ∧
    (∀ (g : Bool) (nf : Nat) (nt : Int),
      OutItem.summaryFailedPct g nf nt ∈ (runCLI opts lines).1 → 1 ≤ nt) := by
  have hinv := runLoopFrom_no_wrap lines {} hb (by simp)
    (by simpa using hlen) (by simp) (by simp)
  rw [← runLoop_eq_runLoopFrom] at hinv
  refine ⟨hinv.2, ?_⟩
  intro g nf nt h
  rw [runCLI_out] at h
  rcases List.mem_append.mp h with hl | ha
  · obtain ⟨t, tx, hx⟩ := lineOutput_shape lines opts _ hl
    simp at hx
  · unfold printAppends at ha
    simp only [] at ha
    rcases List.mem_append.mp ha with hs | hp
    · split_ifs at hs with hsum
      · obtain ⟨hne, _, hnt⟩ := printSummary_pct_mem _ _ _ _ _ _ _ hs
        rw [hnt]
        exact hinv.2 hne
      · simp at hs
    · split_ifs at hp <;> simp_all

/-- Witness for C9 as amended: a single failing test satisfies the
no-wrap bound, ends with counter 1 ≥ 1, and the emitted percentage
record has denominator 1 ≥ 1. -/
theorem c9_no_wrap_no_div_by_zero_witness :
    1 ≤ (runLoop [("not ok".toList)]).testnum ∧
    (1 : Int) ≤ 1 := by
  have h := c9_no_wrap_no_div_by_zero [("not ok".toList)] {Summary := true}
    (by decide) (by decide)
  exact ⟨h.1 (by decide), h.2 false 1 1 (by decide)⟩

/-- A non-test record leaves the test counter and failure list
unchanged. -/
theorem runCLIStep_no_test (st : RunState) (l : lineRecord)
    (hok : l.Type' ≠ lineType.tapTestOK) (hnok : l.Type' ≠ lineType.tapTestNOK) :
    (runCLIStep st l).testnum = st.testnum ∧
    (runCLIStep st l).failures = st.failures := by
  rcases l with ⟨ty, pf, pl, tn⟩
  cases ty <;> simp_all [runCLIStep]

/-- A record that is neither a failing test nor a bail leaves the exit
code unchanged. -/
theorem runCLIStep_no_fail_exit (st : RunState) (l : lineRecord)
    (hnok : l.Type' ≠ lineType.tapTestNOK) (hbail : l.Type' ≠ lineType.tapBail) :
    (runCLIStep st l).exitCode = st.exitCode := by
  rcases l with ⟨ty, pf, pl, tn⟩
  cases ty <;> simp_all [runCLIStep]

/-- Over a stream with no test lines the loop leaves the test counter
unchanged. -/
theorem runLoopFrom_no_test (lines : List (List Char)) (st : RunState)
    (h : ∀ l ∈ lines, (parseLine l).Type' ≠ lineType.tapTestOK ∧
                      (parseLine l).Type' ≠ lineType.tapTestNOK) :
    (runLoopFrom st lines).testnum = st.testnum := by
  induction lines generalizing st with
  | nil => rfl
  | cons l ls ih =>
    rw [runLoopFrom_cons]
    have hl := h l (List.mem_cons_self l ls)
    rw [ih _ (fun x hx => h x (List.mem_cons_of_mem l hx))]
    exact (runCLIStep_no_test st (parseLine l) hl.1 hl.2).1

/-- Over a stream with no failing-test lines and no bail lines the loop
leaves the exit code unchanged. -/
theorem runLoopFrom_no_fail_exit (lines : List (List Char)) (st : RunState)
    (h : ∀ l ∈ lines, (parseLine l).Type' ≠ lineType.tapTestNOK ∧
                      (parseLine l).Type' ≠ lineType.tapBail) :
    (runLoopFrom st lines).exitCode = st.exitCode := by
  induction lines generalizing st with
  | nil => rfl
  | cons l ls ih =>
    rw [runLoopFrom_cons]
    have hl := h l (List.mem_cons_self l ls)
    rw [ih _ (fun x hx => h x (List.mem_cons_of_mem l hx))]
    exact runCLIStep_no_fail_exit st (parseLine l) hl.1 hl.2

/-- C6 as amended.  No-tests case: a stream in which no line classifies
as `TestOk` or `TestNotOk` ends with exit code at least 4
(`planFailExitCode`); it ends with exactly 4 when additionally no line
classifies as Bail (a bail line forces 5 instead); and the "no tests
seen" plan-failure record is emitted — in particular when the summary
option is on. -/
theorem c6_no_tests (lines : List (List Char)) (opts : options)
    (h : ∀ l ∈ lines, (parseLine l).Type' ≠ lineType.tapTestOK ∧
                      (parseLine l).Type' ≠ lineType.tapTestNOK) :
    planFailExitCode ≤ (runCLI opts lines).2 ∧
    ((∀ l ∈ lines, (parseLine l).Type' ≠ lineType.tapBail) →
      (runCLI opts lines).2 = planFailExitCode) ∧
    OutItem.planFailNoTests opts.Glyphs ∈ (runCLI opts lines).1 := by
  have htn : (runLoop lines).testnum = 0 := by
    rw [runLoop_eq_runLoopFrom]
    exact runLoopFrom_no_test lines {} h
  refine ⟨?_, ?_, ?_⟩
  · rw [runCLI_exit, printAppends_exit, htn]
    split_ifs <;> omega
  · intro hnb
    have hec : (runLoop lines).exitCode = 0 := by
      rw [runLoop_eq_runLoopFrom]
      exact runLoopFrom_no_fail_exit lines {}
        (fun l hl => ⟨(h l hl).2, hnb l hl⟩)
    rw [runCLI_exit, printAppends_exit, htn, hec]
    simp [planFailExitCode]
  · rw [runCLI_out]
    refine List.mem_append_right _ ?_
    rw [htn]
    exact printAppends_mem_noTests _ _ _ opts

/-- Counterexample for C6 as stated: the one-line stream `Bail out!`
contains no line classifying as `TestOk` or `TestNotOk`, yet the final
exit code is 5, not exactly 4. -/
theorem c6_counterexample :
    (∀ l ∈ [("Bail out!".toList)],
      (parseLine l).Type' ≠ lineType.tapTestOK ∧
      (parseLine l).Type' ≠ lineType.tapTestNOK) ∧
    (runCLI {Summary := true} [("Bail out!".toList)]).2 = 5 ∧
    (runCLI {Summary := true} [("Bail out!".toList)]).2 ≠ 4 := by
  refine ⟨by decide, by decide, by decide⟩

/-- Witness for C6 as amended: a stream of one diagnostic line has no
test lines and no bail line, exits exactly 4, and emits the "no tests
seen" record with the summary option on. -/
theorem c6_no_tests_witness :
    (runCLI {Summary := true} [("# a diagnostic".toList)]).2 = planFailExitCode ∧
    OutItem.planFailNoTests false ∈
      (runCLI {Summary := true} [("# a diagnostic".toList)]).1 := by
  have h := c6_no_tests [("# a diagnostic".toList)] {Summary := true} (by decide)
  exact ⟨h.2.1 (by decide), h.2.2⟩

/-- A match of `reTest` starts with one of the two result words. -/
theorem reTestFind_starts (s res d : List Char)
    (h : reTestFind s = some (res, d)) :
    ∃ t, (res = ("ok".toList) ∧ s = 'o' :: 'k' :: t) ∨
         (res = ("not ok".toList) ∧ s = 'n' :: 'o' :: 't' :: ' ' :: 'o' :: 'k' :: t) := by
  unfold reTestFind at h
  split_ifs at h with h1 h2
  · obtain ⟨t, ht⟩ := List.isPrefixOf_iff_prefix.mp h1
    revert h
    split
    · intro h
      obtain ⟨rfl, -⟩ := Prod.mk.injEq .. ▸ (Option.some.injEq .. ▸ h)
      exact ⟨t, Or.inl ⟨rfl, ht.symm⟩⟩
    · intro h
      exact absurd h (by simp)
  · obtain ⟨t, ht⟩ := List.isPrefixOf_iff_prefix.mp h2
    revert h
    split
    · intro h
      obtain ⟨rfl, -⟩ := Prod.mk.injEq .. ▸ (Option.some.injEq .. ▸ h)
      exact ⟨t, Or.inr ⟨rfl, ht.symm⟩⟩
    · intro h
      exact absurd h (by simp)

/-- On a line matched by `reTest`, `parseLine` reaches the test branch
(the line matches neither `reVersion` nor `rePlan`) and builds the test
record from the captured groups. -/
theorem parseLine_test (s res d : List Char)
    (h : reTestFind s = some (res, d)) :
    parseLine s =
      { Type' := if res = ("ok".toList) then lineType.tapTestOK
                 else if res = ("not ok".toList) then lineType.tapTestNOK
                 else lineType.tapUnknown,
        TestNum := if d ≠ [] then (goAtoi d).getD 0 else 0 } := by
  obtain ⟨t, ⟨hres, hs⟩ | ⟨hres, hs⟩⟩ := reTestFind_starts s res d h <;> subst hs
  · have hver : reVersionMatch ('o' :: 'k' :: t) = false := by
      simp [reVersionMatch, List.isPrefixOf]
    have hplan : rePlanFind ('o' :: 'k' :: t) = none := by
      simp [rePlanFind, List.takeWhile_cons, isGoDigit, planSearch]
    unfold parseLine
    rw [hver, hplan, h]
    simp
  · have hver : reVersionMatch ('n' :: 'o' :: 't' :: ' ' :: 'o' :: 'k' :: t) = false := by
      simp [reVersionMatch, List.isPrefixOf]
    have hplan : rePlanFind ('n' :: 'o' :: 't' :: ' ' :: 'o' :: 'k' :: t) = none := by
      simp [rePlanFind, List.takeWhile_cons, isGoDigit, planSearch]
    unfold parseLine
    rw [hver, hplan, h]
    simp

/-- The counter/failures/exit updates of a test transition. -/
theorem runCLIStep_test (st : RunState) (l : lineRecord)
    (h : l.Type' = lineType.tapTestOK ∨ l.Type' = lineType.tapTestNOK) :
    (runCLIStep st l).testnum =
      (if 0 < l.TestNum then l.TestNum else wrap64 (st.testnum + 1)) ∧
    (l.Type' = lineType.tapTestNOK →
      (runCLIStep st l).failures = st.failures ++ [(runCLIStep st l).testnum] ∧
      testFailExitCode ≤ (runCLIStep st l).exitCode) := by
  rcases l with ⟨ty, pf, pl, tn⟩
  simp only [lineRecord.Type'] at h ⊢
  rcases h with h | h <;> subst h <;>
    simp [runCLIStep, testFailExitCode] <;> split_ifs <;> (try simp) <;> omega

/-- Counterexample for C4 as stated: the claim says an explicit trailing
integer is always adopted as the new counter value, but for the line
`ok 0` (explicit number 0, a non-empty captured group) the processor
increments the counter instead of adopting 0, because the adoption guard
is `TestNum > 0`. -/
theorem c4_counterexample :
    ¬ (∀ (st : RunState) (s res d : List Char),
        reTestFind s = some (res, d) → d ≠ [] →
        (runCLIStep st (parseLine s)).testnum = (goAtoi d).getD 0) := by
  intro h
  have h0 := h {} ("ok 0".toList) ("ok".toList) ("0".toList) (by decide) (by decide)
  have h1 : (runCLIStep {} (parseLine ("ok 0".toList))).testnum = 1 := by decide
  have h2 : (goAtoi ("0".toList)).getD 0 = 0 := by decide
  rw [h1, h2] at h0
  exact absurd h0 (by decide)

/-- C4 as amended.  Test-number handling: for a line matched by `reTest`,
the classified `TestNum` is the captured integer when the group is
non-empty (0 when `Atoi` overflows) and 0 when absent; the processor
adopts `TestNum` as the new counter value only when it is positive, and
otherwise — number absent, explicitly 0, or overflowed — increments the
counter by 1 with Go's silent 64-bit wraparound (so by exactly 1 from
any non-negative counter below `2^63 - 1`, while from `2^63 - 1` the
counter wraps to `-2^63`); for a `TestNotOk` line the effective
(possibly wrapped) number is appended to `failures` and the exit code is
raised to at least 3. -/
theorem c4_test_numbers (st : RunState) (s res d : List Char)
    (h : reTestFind s = some (res, d)) :
    (parseLine s).TestNum = (if d ≠ [] then (goAtoi d).getD 0 else 0) ∧
    ((parseLine s).Type' = lineType.tapTestOK ∨
     (parseLine s).Type' = lineType.tapTestNOK) ∧
    (runCLIStep st (parseLine s)).testnum =
      (if 0 < (parseLine s).TestNum then (parseLine s).TestNum
       else wrap64 (st.testnum + 1)) ∧
    (¬ 0 < (parseLine s).TestNum → 0 ≤ st.testnum → st.testnum < 2 ^ 63 - 1 →
      (runCLIStep st (parseLine s)).testnum = st.testnum + 1) ∧
    ((parseLine s).Type' = lineType.tapTestNOK →
      (runCLIStep st (parseLine s)).failures =
        st.failures ++ [(runCLIStep st (parseLine s)).testnum] ∧
      testFailExitCode ≤ (runCLIStep st (parseLine s)).exitCode) := by
  have hp := parseLine_test s res d h
  obtain ⟨t, ⟨hres, -⟩ | ⟨hres, -⟩⟩ := reTestFind_starts s res d h <;> subst hres
  · have hty : (parseLine s).Type' = lineType.tapTestOK := by rw [hp]; rfl
    have hstep := runCLIStep_test st (parseLine s) (Or.inl hty)
    have hplus : ¬ 0 < (parseLine s).TestNum → 0 ≤ st.testnum →
        st.testnum < 2 ^ 63 - 1 →
        (runCLIStep st (parseLine s)).testnum = st.testnum + 1 := by
      intro hno hge hlt
      rw [hstep.1, if_neg hno, wrap64_eq_self _ (by omega) (by omega)]
    refine ⟨by rw [hp], Or.inl hty, hstep.1, hplus, hstep.2⟩
  · have hty : (parseLine s).Type' = lineType.tapTestNOK := by rw [hp]; rfl
    have hstep := runCLIStep_test st (parseLine s) (Or.inr hty)
    have hplus : ¬ 0 < (parseLine s).TestNum → 0 ≤ st.testnum →
        st.testnum < 2 ^ 63 - 1 →
        (runCLIStep st (parseLine s)).testnum = st.testnum + 1 := by
      intro hno hge hlt
      rw [hstep.1, if_neg hno, wrap64_eq_self _ (by omega) (by omega)]
    refine ⟨by rw [hp], Or.inr hty, hstep.1, hplus, hstep.2⟩

/-- Witness for C4 as amended, at the line `not ok 7` from the empty
state. -/
theorem c4_test_numbers_witness :
    (parseLine ("not ok 7".toList)).TestNum =
      (if ("7".toList) ≠ [] then (goAtoi ("7".toList)).getD 0 else 0) ∧
    ((parseLine ("not ok 7".toList)).Type' = lineType.tapTestOK ∨
     (parseLine ("not ok 7".toList)).Type' = lineType.tapTestNOK) ∧
    (runCLIStep {} (parseLine ("not ok 7".toList))).testnum =
      (if 0 < (parseLine ("not ok 7".toList)).TestNum
       then (parseLine ("not ok 7".toList)).TestNum
       else wrap64 (RunState.testnum {} + 1)) ∧
    (¬ 0 < (parseLine ("not ok 7".toList)).TestNum →
      0 ≤ RunState.testnum {} → RunState.testnum {} < 2 ^ 63 - 1 →
      (runCLIStep {} (parseLine ("not ok 7".toList))).testnum =
        RunState.testnum {} + 1) ∧
    ((parseLine ("not ok 7".toList)).Type' = lineType.tapTestNOK →
      (runCLIStep {} (parseLine ("not ok 7".toList))).failures =
        RunState.failures {} ++ [(runCLIStep {} (parseLine ("not ok 7".toList))).testnum] ∧
      testFailExitCode ≤ (runCLIStep {} (parseLine ("not ok 7".toList))).exitCode) :=
  c4_test_numbers {} ("not ok 7".toList) ("not ok".toList) ("7".toList) (by decide)

/-- Whitespace (in the `\s` sense) is never a digit. -/
theorem isGoSpace_not_digit (c : Char) (h : isGoSpace c = true) :
    isGoDigit c = false := by
  simp [isGoSpace] at h
  rcases h with rfl | rfl | rfl | rfl | rfl <;> decide

/-- A string matched by the tail of `rePlan` never starts with a digit
(it starts with whitespace, `#`, or is empty). -/
theorem planTail_head_not_digit (t : List Char) (h : planTail t = true)
    (c : Char) (t' : List Char) (ht : t = c :: t') : isGoDigit c = false := by
  subst ht
  by_cases hc : isGoSpace c
  · exact isGoSpace_not_digit c hc
  · unfold planTail at h
    rw [List.dropWhile_cons] at h
    simp only [hc] at h
    simp at h
    rcases h with ⟨rfl, -⟩
    decide

/-- `takeWhile`/`dropWhile` recover an all-satisfying prefix followed by
a block whose head fails the predicate. -/
theorem takeWhile_append_of_all (p : Char → Bool) (d t : List Char)
    (hd : d.all p) (ht : t = [] ∨ ∃ c t', t = c :: t' ∧ p c = false) :
    (d ++ t).takeWhile p = d ∧ (d ++ t).dropWhile p = t := by
  induction d with
  | nil =>
    rcases ht with rfl | ⟨c, t', rfl, hc⟩
    · simp
    · simp [List.takeWhile_cons, List.dropWhile_cons, hc]
  | cons a d ih =>
    simp only [List.all_cons, Bool.and_eq_true] at hd
    have h2 := ih hd.2
    simp [List.takeWhile_cons, List.dropWhile_cons, hd.1, h2.1, h2.2]

/-- An all-satisfying prefix is no longer than the maximal `takeWhile`
run. -/
theorem length_le_takeWhile_of_all (p : Char → Bool) (d rest : List Char)
    (hd : d.all p) : d.length ≤ ((d ++ rest).takeWhile p).length := by
  induction d with
  | nil => simp
  | cons a d ih =>
    simp only [List.all_cons, Bool.and_eq_true] at hd
    have h2 := ih hd.2
    simp [List.takeWhile_cons, hd.1]
    omega

/-- A successful `planSearch` comes from a successful attempt at some
prefix length within the bound. -/
theorem planSearch_some_exists (s : List Char) (n : Nat)
    (r : List Char × List Char) (h : planSearch s n = some r) :
    ∃ k, 1 ≤ k ∧ k ≤ n ∧ planCheckAt s k = some r := by
  induction n with
  | zero => simp [planSearch] at h
  | succ n ih =>
    rcases hck : planCheckAt s (n + 1) with _ | r'
    · rw [planSearch, hck] at h
      obtain ⟨k, h1, h2, h3⟩ := ih h
      exact ⟨k, h1, Nat.le_succ_of_le h2, h3⟩
    · rw [planSearch, hck] at h
      exact ⟨n + 1, by omega, Nat.le_refl _, by rw [hck]; exact h⟩

/-- A successful attempt at some in-bound prefix length makes
`planSearch` succeed. -/
theorem planSearch_isSome (s : List Char) (n k : Nat)
    (h1 : 1 ≤ k) (h2 : k ≤ n) (h3 : (planCheckAt s k).isSome) :
    (planSearch s n).isSome := by
  induction n with
  | zero => omega
  | succ n ih =>
    by_cases hk : k = n + 1
    · subst hk
      obtain ⟨r, hr⟩ := Option.isSome_iff_exists.mp h3
      simp [planSearch, hr]
    · have h2' : k ≤ n := by omega
      rcases hck : planCheckAt s (n + 1) with _ | r'
      · rw [planSearch, hck]
        exact ih h2'
      · simp [planSearch, hck]

theorem planCheckAt_shape (s : List Char) (k : Nat) (d1 d2 : List Char)
    (h : planCheckAt s k = some (d1, d2)) : planShapeAmended s := by
  simp only [planCheckAt] at h
  split_ifs at h with h1
  · revert h
    split
    · next c1 c2 r heq =>
      intro h
      split_ifs at h with h2 h3
      · simp only [Option.some.injEq, Prod.mk.injEq] at h
        obtain ⟨hd1, hd2⟩ := h
        refine ⟨d1, c1, c2, d2, r.dropWhile isGoDigit,
          ?_, ?_, ?_, h2.1, h2.2, ?_, ?_, h3.2⟩
        · rw [← hd1, ← hd2]
          rw [List.append_assoc]
          simp only [List.cons_append]
          rw [List.takeWhile_append_dropWhile, ← heq, List.take_append_drop]
        · rw [← hd1]; exact h1.2.1
        · rw [← hd1]; exact h1.2.2
        · rw [← hd2]; exact h3.1
        · rw [← hd2]
          exact List.all_eq_true.mpr (fun x hx => List.mem_takeWhile_imp hx)
    · next heq =>
      intro h
      exact absurd h (by simp)

/-- The amended plan shape yields a successful attempt at the length of
its first digit group, within the greedy search bound. -/
theorem planShape_to_planCheckAt (s : List Char) (h : planShapeAmended s) :
    ∃ k d1 d2, 1 ≤ k ∧ k ≤ (s.takeWhile isGoDigit).length ∧
      planCheckAt s k = some (d1, d2) := by
  obtain ⟨d1, c1, c2, d2, t, rfl, hd1ne, hd1, hc1, hc2, hd2ne, hd2, htail⟩ := h
  refine ⟨d1.length, d1, d2, ?_, ?_, ?_⟩
  · have : 0 < d1.length := List.length_pos.mpr hd1ne
    omega
  · rw [List.append_assoc]
    exact length_le_takeWhile_of_all _ _ _ hd1
  · have hside : t = [] ∨ ∃ c t', t = c :: t' ∧ isGoDigit c = false := by
      rcases t with _ | ⟨c, t'⟩
      · exact Or.inl rfl
      · exact Or.inr ⟨c, t', rfl, planTail_head_not_digit _ htail c t' rfl⟩
    have hsplit := takeWhile_append_of_all isGoDigit d2 t hd2 hside
    have htake : (d1 ++ c1 :: c2 :: d2 ++ t).take d1.length = d1 := by
      rw [List.append_assoc]
      exact List.take_left _ _
    have hdrop : (d1 ++ c1 :: c2 :: d2 ++ t).drop d1.length = c1 :: c2 :: (d2 ++ t) := by
      rw [List.append_assoc]
      rw [List.drop_left]
      simp
    simp only [planCheckAt, htake, hdrop, hsplit.1, hsplit.2]
    simp [hd1ne, hd1, hc1, hc2, hd2ne, htail]

/-- `rePlan` matches exactly the strings of the amended plan shape. -/
theorem rePlanFind_iff_shape (s : List Char) :
    rePlanFind s ≠ none ↔ planShapeAmended s := by
  constructor
  · intro h
    rcases hr : rePlanFind s with _ | ⟨d1, d2⟩
    · exact absurd hr h
    · unfold rePlanFind at hr
      obtain ⟨k, -, -, hk⟩ := planSearch_some_exists s _ _ hr
      exact planCheckAt_shape s k d1 d2 hk
  · intro h
    obtain ⟨k, d1, d2, h1, h2, h3⟩ := planShape_to_planCheckAt s h
    have hs := planSearch_isSome s _ k h1 h2 (by simp [h3])
    unfold rePlanFind
    exact Option.isSome_iff_ne_none.mp hs

/-- `parseLine` classifies a line as Plan exactly when `reVersion` does
not match and `rePlan` does. -/
theorem parseLine_plan_iff (s : List Char) :
    (parseLine s).Type' = lineType.tapPlan ↔
      reVersionMatch s = false ∧ rePlanFind s ≠ none := by
  by_cases hv : reVersionMatch s = true
  · simp [parseLine, hv]
  · have hv' : reVersionMatch s = false := by simpa using hv
    rcases hp : rePlanFind s with _ | ⟨pf, pl⟩
    · rcases ht : reTestFind s with _ | ⟨res, d⟩
      · simp only [parseLine, hv', hp, ht]
        split_ifs <;> simp
      · simp only [parseLine, hv', hp, ht]
        split_ifs <;> simp
    · simp [parseLine, hv', hp]

/-- Counterexample for C5 as stated: the line `1234` contains no dot at
all, so it does not have the claimed shape (two digit sequences
separated by two literal dots), yet `parseLine` classifies it as Plan —
the two dots in `rePlan` are unescaped and match the digits `2` and `3`
(captures: first = 1, last = 4). -/
theorem c5_counterexample :
    (parseLine ("1234".toList)).Type' = lineType.tapPlan ∧
    (parseLine ("1234".toList)).PlanFirst = 1 ∧
    (parseLine ("1234".toList)).PlanLast = 4 ∧
    ¬ planShapeClaim ("1234".toList) := by
  refine ⟨by decide, by decide, by decide, ?_⟩
  rintro ⟨d1, d2, t, hs, -⟩
  have hdot : '.' ∈ ("1234".toList) := by
    rw [hs]
    simp
  exact absurd hdot (by decide)

/-- C5 as amended.  Plan classification: a line classifies as Plan
exactly when it does not match the Version pattern and has the shape
`<first><c><c><last>` — two digit sequences separated by two arbitrary
non-newline characters (the dots of `rePlan` are unescaped) — optionally
followed by `# <reason>`; the digit sequences selected by the regexp's
greedy leftmost match are extracted as integers, with 0 as the default
when a substring fails to parse as an int. -/
theorem c5_plan_classification (s : List Char) :
    ((parseLine s).Type' = lineType.tapPlan ↔
      reVersionMatch s = false ∧ planShapeAmended s) ∧
    (∀ pf pl, rePlanFind s = some (pf, pl) →
      (parseLine s).PlanFirst = (goAtoi pf).getD 0 ∧
      (parseLine s).PlanLast = (goAtoi pl).getD 0) := by
  constructor
  · rw [parseLine_plan_iff]
    exact and_congr_right (fun _ => rePlanFind_iff_shape s)
  · intro pf pl hp
    have hshape : planShapeAmended s :=
      (rePlanFind_iff_shape s).mp (by simp [hp])
    have hver : reVersionMatch s = false := by
      obtain ⟨d1, c1, c2, d2, t, hs, hd1ne, hd1, -⟩ := hshape
      rcases d1 with _ | ⟨a, d1'⟩
      · exact absurd rfl hd1ne
      · have ha : isGoDigit a = true := by
          simp only [List.all_cons, Bool.and_eq_true] at hd1
          exact hd1.1
        have hne : a ≠ 'T' := by
          intro hh
          rw [hh] at ha
          exact absurd ha (by decide)
        have hTa : (('T' : Char) == a) = false :=
          beq_eq_false_iff_ne.mpr (Ne.symm hne)
        subst hs
        simp [reVersionMatch, List.isPrefixOf, hTa]
    simp [parseLine, hver, hp]

/-- Witness for C5 as amended: on the line `1..2` the regexp captures
`1` and `2`, extracted as plan bounds 1 and 2. -/
theorem c5_plan_classification_witness :
    (parseLine ("1..2".toList)).PlanFirst = (goAtoi ("1".toList)).getD 0 ∧
    (parseLine ("1..2".toList)).PlanLast = (goAtoi ("2".toList)).getD 0 :=
  (c5_plan_classification ("1..2".toList)).2 ("1".toList) ("2".toList) (by decide)

/-- The glyph substitution does not depend on the failures option. -/
theorem glyphText_failures (b : Bool) (opts : options) (t : lineType)
    (tx : List Char) :
    glyphText {opts with Failures := b} t tx = glyphText opts t tx := rfl

/-- `isTestOKLine` on a rendered line tests its kind. -/
theorem isTestOKLine_line (t : lineType) (tx : List Char) :
    isTestOKLine (OutItem.line t tx) = decide (t = lineType.tapTestOK) := by
  cases t <;> rfl

/-- Suppressing successes filters exactly the `TestOk` lines out of the
per-line output. -/
theorem lineOutput_failures_filter (lines : List (List Char)) (opts : options) :
    lineOutput lines {opts with Failures := true} =
      (lineOutput lines {opts with Failures := false}).filter
        (fun i => !(isTestOKLine i)) := by
  induction lines with
  | nil => rfl
  | cons l ls ih =>
    simp only [lineOutput, List.filterMap_cons] at ih ⊢
    by_cases h : (parseLine l).Type' = lineType.tapTestOK
    · rw [h]
      have h1 : cprintlnOut l lineType.tapTestOK {opts with Failures := true} = none := by
        simp [cprintlnOut]
      have h2 : cprintlnOut l lineType.tapTestOK {opts with Failures := false} =
          some (glyphText opts lineType.tapTestOK l) := by
        simp [cprintlnOut, glyphText_failures]
      simp [List.filterMap_cons, h1, h2, List.filter_cons, isTestOKLine_line, ih]
    · have h1 : cprintlnOut l (parseLine l).Type' {opts with Failures := true} =
          some (glyphText opts (parseLine l).Type' l) := by
        simp [cprintlnOut, h, glyphText_failures]
      have h2 : cprintlnOut l (parseLine l).Type' {opts with Failures := false} =
          some (glyphText opts (parseLine l).Type' l) := by
        simp [cprintlnOut, glyphText_failures]
      simp [List.filterMap_cons, h1, h2, List.filter_cons, isTestOKLine_line, h, ih]

/-- `printAppends` reads only the summary and glyph options. -/
theorem printAppends_opts (f : List Int) (tn pl : Int) (ec : Nat) (o1 o2 : options)
    (hS : o1.Summary = o2.Summary) (hG : o1.Glyphs = o2.Glyphs) :
    printAppends f tn pl ec o1 = printAppends f tn pl ec o2 := by
  simp [printAppends, printSummary, hS, hG]

/-- No record appended by `printAppends` is a rendered `TestOk` line. -/
theorem printAppends_not_ok_line (f : List Int) (tn pl : Int) (ec : Nat)
    (opts : options) (x : OutItem) (hx : x ∈ (printAppends f tn pl ec opts).1) :
    isTestOKLine x = false := by
  unfold printAppends printSummary at hx
  simp only [] at hx
  rcases List.mem_append.mp hx with hs | hp
  · split_ifs at hs <;> simp at hs <;>
      rcases hs with rfl | rfl <;> rfl
  · split_ifs at hp <;> simp at hp <;>
      (try subst hp) <;> rfl

/-- C7.  Suppress-successes filtering: with the failures option on the
run's output is exactly the output of the same run with it off, minus
every rendered `TestOk` line — all records of every other kind are kept,
in the same relative order — and the exit code is unchanged. -/
theorem c7_suppress_successes (lines : List (List Char)) (opts : options) :
    (runCLI {opts with Failures := true} lines).1 =
      ((runCLI {opts with Failures := false} lines).1).filter
        (fun i => !(isTestOKLine i)) ∧
    (runCLI {opts with Failures := true} lines).2 =
      (runCLI {opts with Failures := false} lines).2 := by
  have happ : printAppends (runLoop lines).failures (runLoop lines).testnum
      (runLoop lines).planLast (runLoop lines).exitCode {opts with Failures := true} =
      printAppends (runLoop lines).failures (runLoop lines).testnum
        (runLoop lines).planLast (runLoop lines).exitCode {opts with Failures := false} :=
    printAppends_opts _ _ _ _ _ _ rfl rfl
  constructor
  · rw [runCLI_out, runCLI_out, List.filter_append, happ]
    rw [lineOutput_failures_filter]
    congr 1
    exact (List.filter_eq_self.mpr
      (fun x hx => by
        simp only [Bool.not_eq_true']
        exact printAppends_not_ok_line _ _ _ _ _ x hx)).symm
  · rw [runCLI_exit, runCLI_exit, happ]

/-- Counterexample for C8 as stated: the run with the unresolvable colour
option `--cfail bogus` surfaces no failure at all — `parseColour`
rejects the string, but `getColourMap` silently substitutes the built-in
default (red bold) and the stream is processed to completion, output and
exit code included. -/
theorem c8_counterexample :
    parseColour ("bogus".toList) = Except.error colourErr.badColourString ∧
    getColourMap {CFail := ("bogus".toList)} lineType.tapTestNOK =
      some (Printer.colorNew [Colour.FgRed, Colour.OpBold]) ∧
    (runCLI {CFail := ("bogus".toList)} [("not ok 1".toList)]).1 =
      [OutItem.line lineType.tapTestNOK ("not ok 1".toList),
       OutItem.planFailSeen false 1 0] ∧
    (runCLI {CFail := ("bogus".toList)} [("not ok 1".toList)]).2 = 4 := by
  refine ⟨by rfl, by decide, by decide, by decide⟩

/-- C8 as amended.  Style configuration errors are not surfaced: an
unresolvable supplied style descriptor is silently ignored and the
built-in default colour is used for that line type (shown here for the
test-fail colour option); the colour map is built, fully populated,
before any input line is processed, so no stream is ever processed
under an incomplete style map. -/
theorem c8_style_fallback (opt : options) (e : colourErr)
    (h : parseColour opt.CFail = Except.error e) :
    getColourMap opt lineType.tapTestNOK =
      some (Printer.colorNew [Colour.FgRed, Colour.OpBold]) := by
  show getColour defaultCFail opt.CFail = _
  unfold getColour
  by_cases ho : opt.CFail = []
  · rw [ho]
    decide
  · simp only [ne_eq, ho, not_false_eq_true, if_true, h]
    decide

/-- Witness for C8 as amended, at the concrete descriptor `bogus`. -/
theorem c8_style_fallback_witness :
    getColourMap {CFail := ("bogus".toList)} lineType.tapTestNOK =
      some (Printer.colorNew [Colour.FgRed, Colour.OpBold]) :=
  c8_style_fallback {CFail := ("bogus".toList)} colourErr.badColourString (by rfl)

/-- `getColour` resolves whenever its default colour string parses. -/
theorem getColour_isSome (d o : List Char) (c : Printer)
    (hd : parseColour d = Except.ok c) : (getColour d o).isSome := by
  unfold getColour
  by_cases ho : o = []
  · simp [ho, hd]
  · simp only [ne_eq, ho, not_false_eq_true, if_true]
    cases hp : parseColour o <;> simp [hp, hd]

/-- C10.  Implicit safety: the colour map built by `getColourMap` has a
resolvable entry for every value of the `lineType` enumeration,
including the synthetic SummaryOK, SummaryNOK and PlanNOK kinds; hence
for every line of every input stream the `no formatter defined for
linetype` fatal branch of `cprintln` is unreachable when the map comes
from `getColourMap`. -/
theorem c10_colourmap_total (opt : options) :
    (∀ t, (getColourMap opt t).isSome) ∧
    (∀ (t : lineType) (text : List Char),
      cprintln text t (getColourMap opt) opt ≠ Except.error ()) := by
  have htot : ∀ t, (getColourMap opt t).isSome := by
    intro t
    cases t
    case tapUnknown =>
      exact getColour_isSome defaultCUnknown [] (Printer.colorNew [Colour.FgDefault]) (by rfl)
    case tapVersion =>
      exact getColour_isSome defaultCVersion opt.CVersion (Printer.colorNew [Colour.FgCyan]) (by rfl)
    case tapPlan =>
      exact getColour_isSome defaultCPlan opt.CPlan (Printer.colorNew [Colour.FgWhite]) (by rfl)
    case tapTestOK =>
      exact getColour_isSome defaultCOk opt.COk (Printer.colorNew [Colour.FgGreen]) (by rfl)
    case tapTestNOK =>
      exact getColour_isSome defaultCFail opt.CFail (Printer.colorNew [Colour.FgRed, Colour.OpBold]) (by rfl)
    case tapDiagnostic =>
      exact getColour_isSome defaultCDiag opt.CDiag (Printer.colorNew [Colour.FgGray]) (by rfl)
    case tapBail =>
      exact getColour_isSome defaultCBail opt.CBail (Printer.colorNew [Colour.FgYellow, Colour.OpBold]) (by rfl)
    case tapSummaryOK =>
      exact getColour_isSome defaultCSummOk [] (Printer.colorNew [Colour.FgGreen, Colour.OpBold]) (by rfl)
    case tapSummaryNOK =>
      exact getColour_isSome defaultCSummFail [] (Printer.colorNew [Colour.FgRed, Colour.OpBold]) (by rfl)
    case tapPlanNOK =>
      exact getColour_isSome defaultCPlanFail [] (Printer.colorNew [Colour.FgMagenta, Colour.OpBold]) (by rfl)
  refine ⟨htot, ?_⟩
  intro t text
  unfold cprintln
  split_ifs
  · simp
  · obtain ⟨c, hc⟩ := Option.isSome_iff_exists.mp (htot t)
    rw [hc]
    simp
